import Mathlib

/-!
Shallow embedding of the aggregation/statistics core of the DDDD fitness
backend (`src/bancked/analytics.py` and `src/bancked/utils.py`), together with
theorems settling the frozen claims about it.

Numbers: Python floats are modelled as rationals (`ℚ`); `round(x, n)` is
modelled as exact decimal rounding with ties to even (Python's rounding mode),
and `int(round(x))` likewise.  Python dictionaries holding optional fields are
modelled as structures with `Option` fields; Python truthiness on a numeric
field (`if r.get("w")`) is value-is-present-and-nonzero, and on a string field
it is present-and-nonempty.
-/

namespace Bancked

/-- Floor of a rational, computed as `num / den` with Euclidean integer
division (the denominator is positive, so this is the floor). -/
def qfloor (q : ℚ) : ℤ := q.num / (q.den : ℤ)

/-- Python's `round` to an integer: nearest integer, ties to even
(banker's rounding). -/
def pythonRound (q : ℚ) : ℤ :=
  let f := qfloor q
  let r := q - (f : ℚ)
  if r < 1/2 then f
  else if 1/2 < r then f + 1
  else if f % 2 = 0 then f else f + 1

/-- Python's `round(x, 2)` on ideal (rational) values. -/
def round2 (q : ℚ) : ℚ := (pythonRound (q * 100) : ℚ) / 100

/-- Python's `round(x, 1)` on ideal (rational) values. -/
def round1 (q : ℚ) : ℚ := (pythonRound (q * 10) : ℚ) / 10

/-- Result shape of `calculate_change` (`{"absolute": ..., "percentage": ...}`). -/
structure ChangeResult where
  absolute : ℚ
  percentage : ℚ
deriving DecidableEq

/-- `analytics.calculate_change(old_value, new_value)`: absolute and percentage
change; returns zeroes when either input is `None` or the old value is `0`. -/
def calculate_change (old_value new_value : Option ℚ) : ChangeResult :=
  match old_value, new_value with
  | some o, some n =>
    if o = 0 then ⟨0, 0⟩
    else ⟨round2 (n - o), round2 ((n - o) / o * 100)⟩
  | _, _ => ⟨0, 0⟩

/-- Result shape of `calculate_statistics`. -/
structure StatSummary where
  min : ℚ
  max : ℚ
  average : ℚ
  median : ℚ
deriving DecidableEq

/-- `analytics.calculate_statistics(values)`: min, max, mean and median of a
list, each rounded to two decimals; all zero on the empty list.  `min`/`max`
are folds as in Python's builtins, `mean` is sum over length, and `median`
follows `statistics.median`: sort, take the middle element for odd length and
the average of the two middle elements for even length. -/
def calculate_statistics (values : List ℚ) : StatSummary :=
  match values with
  | [] => ⟨0, 0, 0, 0⟩
  | v :: vs =>
    let mn := vs.foldl Min.min v
    let mx := vs.foldl Max.max v
    let avg := (v :: vs).sum / ((v :: vs).length : ℚ)
    let s := List.insertionSort (· ≤ ·) (v :: vs)
    let n := s.length
    let med : ℚ :=
      if n % 2 = 1 then s.getD (n / 2) 0
      else (s.getD (n / 2 - 1) 0 + s.getD (n / 2) 0) / 2
    ⟨round2 mn, round2 mx, round2 avg, round2 med⟩

/-- `utils.calculate_bmi(weight_kg, height_cm)`: weight over squared height in
metres, rounded to one decimal, with a guard returning `0.0` for non-positive
inputs. -/
def calculate_bmi (weight_kg height_cm : ℚ) : ℚ :=
  if weight_kg ≤ 0 ∨ height_cm ≤ 0 then 0
  else round1 (weight_kg / (height_cm / 100) ^ 2)

/-- The `MET_VALUES` table of `utils.calculate_calories_burned`, in source
order. -/
def MET_VALUES : List (String × ℚ) :=
  [("running", 9.8), ("jogging", 7.0), ("walking", 3.5), ("cycling", 7.5),
   ("swimming", 8.0), ("strength_training", 6.0), ("weightlifting", 6.0),
   ("yoga", 3.0), ("pilates", 3.5), ("hiit", 10.0), ("dancing", 5.0),
   ("basketball", 6.5), ("soccer", 7.0), ("tennis", 7.3), ("hiking", 6.0),
   ("elliptical", 7.0), ("rowing", 8.5), ("climbing", 8.0)]

/-- `workout_type.lower().replace(' ', '_')` (over the string's characters;
`Char.toLower` matches Python for the ASCII activity names involved). -/
def normalizeActivity (s : String) : String :=
  String.mk ((s.data.map Char.toLower).map (fun c => if c = ' ' then '_' else c))

/-- `MET_VALUES.get(key, 5.0)`. -/
def metFor (key : String) : ℚ :=
  (((MET_VALUES.find? (fun p => p.1 = key)).map Prod.snd).getD 5.0)

/-- `utils.calculate_calories_burned(workout_type, duration_minutes, weight_kg)`:
`int(round(met * weight_kg * (duration_minutes / 60)))` with the MET value
looked up for the normalized activity name. -/
def calculate_calories_burned (workout_type : String) (duration_minutes : ℚ)
    (weight_kg : ℚ := 70.0) : ℤ :=
  let met := metFor (normalizeActivity workout_type)
  pythonRound (met * weight_kg * (duration_minutes / 60))

/-! ### Dates

`aggregate_by_period` works on `datetime` values; only the calendar date part
ever influences a bucket key, so a date is `(year, month, day)` in the
proleptic Gregorian calendar, as in Python's `datetime`. -/

/-- A calendar date (the date part of a Python `datetime`). -/
structure Date where
  year : ℕ
  month : ℕ
  day : ℕ
deriving DecidableEq

/-- Gregorian leap-year rule. -/
def isLeap (y : ℕ) : Bool := (y % 4 = 0 && y % 100 ≠ 0) || y % 400 = 0

/-- Number of days in a month. -/
def daysInMonth (y m : ℕ) : ℕ :=
  if m = 2 then (if isLeap y then 29 else 28)
  else if m = 4 ∨ m = 6 ∨ m = 9 ∨ m = 11 then 30
  else 31

/-- Days of the year strictly before month `m`. -/
def daysBeforeMonth (y m : ℕ) : ℕ :=
  let feb := if isLeap y then 29 else 28
  match m with
  | 1 => 0 | 2 => 31 | 3 => 31 + feb | 4 => 62 + feb | 5 => 92 + feb
  | 6 => 123 + feb | 7 => 153 + feb | 8 => 184 + feb | 9 => 215 + feb
  | 10 => 245 + feb | 11 => 276 + feb | 12 => 306 + feb | _ => 0

/-- Zero-based day of the year (`datetime.timetuple().tm_yday - 1`). -/
def dayOfYear0 (d : Date) : ℕ := daysBeforeMonth d.year d.month + (d.day - 1)

/-- Days elapsed since 0001-01-01 (proleptic Gregorian), i.e.
`datetime.toordinal() - 1`. -/
def totalDays0 (d : Date) : ℕ :=
  365 * (d.year - 1) + (d.year - 1) / 4 - (d.year - 1) / 100 + (d.year - 1) / 400
    + dayOfYear0 d

/-- Weekday with Monday = 0 (`datetime.weekday()`); 0001-01-01 was a Monday. -/
def weekdayMon0 (d : Date) : ℕ := totalDays0 d % 7

/-- `strftime("%W")`: week of the year, weeks beginning on Monday, days before
the first Monday of the year in week 00. -/
def weekW (d : Date) : ℕ := (dayOfYear0 d + 7 - weekdayMon0 d) / 7

/-- The decimal digit character for `n % 10`. -/
def digitChar (n : ℕ) : Char :=
  match n % 10 with
  | 0 => '0' | 1 => '1' | 2 => '2' | 3 => '3' | 4 => '4'
  | 5 => '5' | 6 => '6' | 7 => '7' | 8 => '8' | _ => '9'

/-- A number printed as exactly two zero-padded decimal digits (`%m`, `%d`,
`%W` for the in-range values that arise). -/
def digits2 (n : ℕ) : List Char := [digitChar (n / 10), digitChar n]

/-- A number printed as exactly four zero-padded decimal digits (`%Y` for the
`datetime`-representable years 1–9999). -/
def digits4 (n : ℕ) : List Char :=
  [digitChar (n / 1000), digitChar (n / 100), digitChar (n / 10), digitChar n]

/-- `strftime("%Y-%m-%d")`. -/
def fmtDay (d : Date) : String :=
  String.mk (digits4 d.year ++ '-' :: (digits2 d.month ++ '-' :: digits2 d.day))

/-- `strftime("%Y-W%W")`. -/
def fmtWeek (d : Date) : String :=
  String.mk (digits4 d.year ++ '-' :: 'W' :: digits2 (weekW d))

/-- `strftime("%Y-%m")`. -/
def fmtMonth (d : Date) : String :=
  String.mk (digits4 d.year ++ '-' :: digits2 d.month)

/-- The bucket key of `aggregate_by_period` for a parsed date: `%Y-%m-%d` for
`"day"`, `%Y-W%W` for `"week"`, `%Y-%m` for `"month"`, and the day format for
anything else. -/
def periodKey (period : String) (d : Date) : String :=
  if period = "day" then fmtDay d
  else if period = "week" then fmtWeek d
  else if period = "month" then fmtMonth d
  else fmtDay d

/-- The dates representable by Python's `datetime` (years 1–9999, valid
month/day). -/
def ValidDate (d : Date) : Prop :=
  1 ≤ d.year ∧ d.year ≤ 9999 ∧ 1 ≤ d.month ∧ d.month ≤ 12 ∧
    1 ≤ d.day ∧ d.day ≤ daysInMonth d.year d.month

instance (d : Date) : Decidable (ValidDate d) := by
  unfold ValidDate; infer_instance

/-- Numeric value of a decimal digit character. -/
def dval (c : Char) : ℕ := c.toNat - 48

/-- `datetime.fromisoformat`, restricted to the plain calendar-date form
`YYYY-MM-DD` — the only string form the claims evaluate it on (general
timestamps enter the aggregation as already-parsed `datetime` values).
`none` models a raised `ValueError`. -/
def fromiso (s : String) : Option Date :=
  match s.data with
  | [y1, y2, y3, y4, h1, a1, a2, h2, b1, b2] =>
    if h1 = '-' && h2 = '-' && y1.isDigit && y2.isDigit && y3.isDigit &&
        y4.isDigit && a1.isDigit && a2.isDigit && b1.isDigit && b2.isDigit then
      let y := 1000 * dval y1 + 100 * dval y2 + 10 * dval y3 + dval y4
      let mo := 10 * dval a1 + dval a2
      let da := 10 * dval b1 + dval b2
      if 1 ≤ y ∧ 1 ≤ mo ∧ mo ≤ 12 ∧ 1 ≤ da ∧ da ≤ daysInMonth y mo then
        some ⟨y, mo, da⟩
      else none
    else none
  | _ => none

/-! ### `aggregate_by_period`

A record is modelled by its two consulted fields: `record.get(date_field)` and
`record.get(value_field)`.  The date field may hold an ISO string or an
already-parsed `datetime` (the two cases of `isinstance(date_str, str)`). -/

/-- A date-field value: a string, or an already-parsed `datetime`. -/
inductive DVal where
  | dstr (s : String)
  | ddt (d : Date)
deriving DecidableEq

/-- Python truthiness of a date-field value (`if not date_str: continue`): a
`datetime` is always truthy, a string is truthy iff nonempty. -/
def truthyD : DVal → Bool
  | .dstr s => s ≠ ""
  | .ddt _ => true

/-- `datetime.fromisoformat(date_str.replace('Z', '+00:00'))` for a string,
identity for an already-parsed `datetime`. -/
def parseD : DVal → Option Date
  | .dstr s => fromiso s
  | .ddt d => some d

/-- An input record of `aggregate_by_period`, restricted to its two consulted
fields (`record.get(date_field)`, `record.get(value_field)`). -/
structure Rec where
  date : Option DVal
  value : Option ℚ
deriving DecidableEq

/-- An entry of the `aggregated` dict:
`{"period": key, "values": [...], "count": n}`. -/
structure Agg where
  period : String
  values : List ℚ
  count : ℕ
deriving DecidableEq

/-- An output data point: `{"period": ..., "average": ..., "count": ...}`. -/
structure Bucket where
  period : String
  average : ℚ
  count : ℕ
deriving DecidableEq

/-- One dict update of the aggregation loop: append `v` to the entry keyed
`k`, creating the entry (`if key not in aggregated`) at the end — Python
dicts preserve insertion order. -/
def insertRecord : List Agg → String → ℚ → List Agg
  | [], k, v => [⟨k, [v], 1⟩]
  | a :: rest, k, v =>
    if a.period = k then ⟨a.period, a.values ++ [v], a.count + 1⟩ :: rest
    else a :: insertRecord rest k v

/-- The `for record in data` loop of `aggregate_by_period` over accumulator
`m`: skip records with a falsy date or absent value, parse the date (a parse
failure raises, modelled as `none`), and insert the value under its period
key. -/
def buildAgg (period : String) (m : List Agg) : List Rec → Option (List Agg)
  | [] => some m
  | r :: rs =>
    match r.date, r.value with
    | some dv, some v =>
      if truthyD dv then
        match parseD dv with
        | some d => buildAgg period (insertRecord m (periodKey period d) v) rs
        | none => none
      else buildAgg period m rs
    | _, _ => buildAgg period m rs

/-- The key order `sorted(aggregated.keys())` used to emit the result. -/
def aggLe (a b : Agg) : Prop := a.period ≤ b.period

instance : DecidableRel aggLe := fun a b =>
  inferInstanceAs (Decidable (a.period ≤ b.period))

instance : IsTotal Agg aggLe := ⟨fun a b => le_total a.period b.period⟩

instance : IsTrans Agg aggLe := ⟨fun _ _ _ h1 h2 => le_trans h1 h2⟩

/-- `statistics.mean`: sum over length. -/
def qmean (l : List ℚ) : ℚ := l.sum / (l.length : ℚ)

/-- The result loop of `aggregate_by_period`: emit, for each key in sorted
order, the period, the rounded mean of its values, and its count.  (Iterating
the dict's entries in sorted key order is the same as sorting the entries by
key, since the keys are distinct.) -/
def finalizeAgg (m : List Agg) : List Bucket :=
  (List.insertionSort aggLe m).map
    (fun a => ⟨a.period, round2 (qmean a.values), a.count⟩)

/-- `analytics.aggregate_by_period(data, date_field, value_field, period)`:
`none` models an uncaught `ValueError` from date parsing. -/
def aggregate_by_period (data : List Rec) (period : String) :
    Option (List Bucket) :=
  if data.isEmpty then some []
  else (buildAgg period [] data).map finalizeAgg

/-! #### Pure characterization of the aggregation loop

`keptKV` is the key/value contribution of one record; `recOK` says processing
the record does not raise; `pureBuild` is the loop on the records that do not
raise.  `canonAgg` is the canonical description of the output: the sorted
deduplicated key list, and per key the values of the records grouped under
it. -/

/-- The `(period key, value)` contribution of a record, `none` if the record
is skipped or its date fails to parse. -/
def keptKV (p : String) (r : Rec) : Option (String × ℚ) :=
  match r.date, r.value with
  | some dv, some v =>
    if truthyD dv then (parseD dv).map (fun d => (periodKey p d, v)) else none
  | _, _ => none

/-- Processing the record does not raise: it is skipped, or its date parses. -/
def recOK (r : Rec) : Bool :=
  match r.date, r.value with
  | some dv, some _ => !truthyD dv || (parseD dv).isSome
  | _, _ => true

/-- The record is kept by the loop (truthy date and present value). -/
def keptB (r : Rec) : Bool :=
  match r.date, r.value with
  | some dv, some _ => truthyD dv
  | _, _ => false

/-- The aggregation loop restricted to records that do not raise. -/
def pureBuild (p : String) (m : List Agg) (rs : List Rec) : List Agg :=
  rs.foldl
    (fun m r => match keptKV p r with
      | some (k, v) => insertRecord m k v
      | none => m) m

/-- The period keys of the kept records, in input order. -/
def keptKeys (p : String) (rs : List Rec) : List String :=
  rs.filterMap (fun r => (keptKV p r).map Prod.fst)

/-- The values grouped under key `k`, in input order. -/
def groupVals (p : String) (k : String) (rs : List Rec) : List ℚ :=
  rs.filterMap (fun r => match keptKV p r with
    | some (k', v) => if k' = k then some v else none
    | none => none)

/-- The sorted, deduplicated key list of the output. -/
def canonKeys (p : String) (rs : List Rec) : List String :=
  List.insertionSort (· ≤ ·) (keptKeys p rs).dedup

/-- The output bucket for key `k`. -/
def canonBucket (p : String) (rs : List Rec) (k : String) : Bucket :=
  ⟨k, round2 (qmean (groupVals p k rs)), (groupVals p k rs).length⟩

/-- The canonical description of the whole output. -/
def canonAgg (p : String) (rs : List Rec) : List Bucket :=
  (canonKeys p rs).map (canonBucket p rs)

/-- The values list stored under key `k` (first matching entry, as a Python
dict lookup). -/
def valsOf (m : List Agg) (k : String) : List ℚ :=
  ((m.find? (fun a => a.period = k)).map Agg.values).getD []

/-- The bucket dict re-read as an input record with `date_field = "period"`
and `value_field = "average"`. -/
def bucketToRec (b : Bucket) : Rec := ⟨some (DVal.dstr b.period), some b.average⟩

/-- The same bucket with its count reset to 1 (what re-aggregation produces
for a singleton group). -/
def resetCount (b : Bucket) : Bucket := ⟨b.period, b.average, 1⟩

/-! ### `calculate_workout_stats` -/

/-- A workout record restricted to the fields `calculate_workout_stats`
consults. -/
structure WorkoutRec where
  duration : Option ℚ
  caloriesBurned : Option ℚ
  distance : Option ℚ
deriving DecidableEq

/-- Result shape of `calculate_workout_stats`. -/
structure WorkoutStatsR where
  total_workouts : ℕ
  total_duration : ℚ
  total_calories : ℚ
  total_distance : Option ℚ
deriving DecidableEq

/-- `analytics.calculate_workout_stats(records)`.  `distances` keeps only
truthy (present, nonzero) distance values, and the final
`round(total_distance, 2) if total_distance else None` maps a zero (or absent)
sum to `None`. -/
def calculate_workout_stats (records : List WorkoutRec) : WorkoutStatsR :=
  if records.isEmpty then ⟨0, 0, 0, none⟩
  else
    let total_duration := (records.map (fun r => r.duration.getD 0)).sum
    let total_calories := (records.map (fun r => r.caloriesBurned.getD 0)).sum
    let distances := records.filterMap
      (fun r => match r.distance with
        | some q => if q = 0 then none else some q
        | none => none)
    let total_distance : Option ℚ :=
      if distances.isEmpty then none else some distances.sum
    { total_workouts := records.length
      total_duration := total_duration
      total_calories := total_calories
      total_distance :=
        match total_distance with
        | some s => if s = 0 then none else some (round2 s)
        | none => none }

/-! ### `calculate_body_metrics_stats` -/

/-- A body-metric record restricted to the fields
`calculate_body_metrics_stats` consults. -/
structure BodyRec where
  recordedAt : Option String
  weight : Option ℚ
  bmi : Option ℚ
  bodyFatPercentage : Option ℚ
deriving DecidableEq

/-- The default record models the Python fallback `{}` (every `.get` yields
`None`). -/
instance : Inhabited BodyRec := ⟨⟨none, none, none, none⟩⟩

/-- Result shape of `calculate_body_metrics_stats`. -/
structure BodyStatsR where
  latest_weight : Option ℚ
  average_weight : Option ℚ
  weight_change : Option ℚ
  latest_bmi : Option ℚ
  latest_body_fat : Option ℚ
deriving DecidableEq

/-- The sort key `x.get("recordedAt", "")`. -/
def bodyKey (r : BodyRec) : String := r.recordedAt.getD ""

/-- The descending order of `sorted(records, key=..., reverse=True)`; a stable
sort under this relation keeps equal keys in input order, as Python's does. -/
def bodyGe (a b : BodyRec) : Prop := bodyKey b ≤ bodyKey a

instance : DecidableRel bodyGe := fun a b =>
  inferInstanceAs (Decidable (bodyKey b ≤ bodyKey a))

instance : IsTotal BodyRec bodyGe := ⟨fun a b => le_total (bodyKey b) (bodyKey a)⟩

instance : IsTrans BodyRec bodyGe := ⟨fun _ _ _ h1 h2 => le_trans h2 h1⟩

/-- `sorted(records, key=lambda x: x.get("recordedAt", ""), reverse=True)`. -/
def sortBodyDesc (records : List BodyRec) : List BodyRec :=
  List.insertionSort bodyGe records

/-- Python truthiness of an optional numeric value. -/
def truthyQ : Option ℚ → Bool
  | none => false
  | some q => q ≠ 0

/-- `analytics.calculate_body_metrics_stats(records)`. -/
def calculate_body_metrics_stats (records : List BodyRec) : BodyStatsR :=
  if records.isEmpty then ⟨none, none, none, none, none⟩
  else
    let sorted_records := sortBodyDesc records
    let latest := sorted_records.headI
    let weights := records.filterMap
      (fun r => match r.weight with
        | some w => if w = 0 then none else some w
        | none => none)
    let weight_change : Option ℚ :=
      if 2 ≤ sorted_records.length ∧ truthyQ sorted_records.headI.weight
          ∧ truthyQ sorted_records.getLastI.weight then
        some (calculate_change sorted_records.getLastI.weight
          sorted_records.headI.weight).absolute
      else none
    { latest_weight := latest.weight
      average_weight :=
        if weights.isEmpty then none
        else some (round1 (qmean weights))
      weight_change := weight_change
      latest_bmi := latest.bmi
      latest_body_fat := latest.bodyFatPercentage }

/-- Modelled from the spec: the week-key convention the claim states —
`YYYY-Www` where weeks begin on Sunday and week 00 starts on January 1 (the
days before the year's first Sunday are week 00).  `(weekdayMon0 d + 1) % 7`
is the weekday with Sunday = 0. -/
def specSundayWeekKey (d : Date) : String :=
  String.mk (digits4 d.year ++ '-' :: 'W' ::
    digits2 ((dayOfYear0 d + 7 - (weekdayMon0 d + 1) % 7) / 7))

/-- Sample date 2023-01-05. -/
def dateA : Date := ⟨2023, 1, 5⟩

/-- Sample record: value 1 on 2023-01-05 (already-parsed date). -/
def recA : Rec := ⟨some (DVal.ddt dateA), some 1⟩

/-- Sample record: value 3 on 2023-01-05 (already-parsed date). -/
def recB : Rec := ⟨some (DVal.ddt dateA), some 3⟩

/-- The bucket produced by aggregating `[recA, recB]` by day. -/
def bucketAB : Bucket := ⟨"2023-01-05", 2, 2⟩

/-! ### Theorems -/

theorem qfloor_eq_floor (q : ℚ) : qfloor q = ⌊q⌋ := (Rat.floor_def).symm

theorem pythonRound_intCast (z : ℤ) : pythonRound (z : ℚ) = z := by
  have hf : qfloor (z : ℚ) = z := by
    rw [qfloor_eq_floor]; exact Int.floor_intCast z
  simp only [pythonRound, hf]
  norm_num

theorem round2_round2 (q : ℚ) : round2 (round2 q) = round2 q := by
  unfold round2
  rw [div_mul_cancel₀ _ (by norm_num : (100 : ℚ) ≠ 0), pythonRound_intCast]

theorem pythonRound_intVal {q : ℚ} {z : ℤ} (h : q = (z : ℚ)) : pythonRound q = z :=
  h ▸ pythonRound_intCast z

theorem round2_intVal {q : ℚ} {z : ℤ} (h : q * 100 = (z : ℚ)) :
    round2 q = (z : ℚ) / 100 := by
  unfold round2
  rw [h, pythonRound_intCast]

theorem round1_intVal {q : ℚ} {z : ℤ} (h : q * 10 = (z : ℚ)) :
    round1 q = (z : ℚ) / 10 := by
  unfold round1
  rw [h, pythonRound_intCast]

theorem foldl_min_spec (v : ℚ) (vs : List ℚ) :
    vs.foldl Min.min v ∈ v :: vs ∧ ∀ y ∈ v :: vs, vs.foldl Min.min v ≤ y := by
  induction vs generalizing v with
  | nil => simp
  | cons w ws ih =>
    obtain ⟨hmem, hle⟩ := ih (Min.min v w)
    rw [List.foldl_cons]
    simp only [List.mem_cons] at hmem
    constructor
    · rcases hmem with h | h
      · rw [h]
        rcases min_choice v w with hc | hc <;> rw [hc]
        · exact List.mem_cons_self _ _
        · exact List.mem_cons_of_mem _ (List.mem_cons_self _ _)
      · exact List.mem_cons_of_mem _ (List.mem_cons_of_mem _ h)
    · intro y hy
      simp only [List.mem_cons] at hy
      rcases hy with rfl | rfl | h
      · exact le_trans (hle _ (List.mem_cons_self _ _)) (min_le_left _ _)
      · exact le_trans (hle _ (List.mem_cons_self _ _)) (min_le_right _ _)
      · exact hle y (List.mem_cons_of_mem _ h)

theorem foldl_max_spec (v : ℚ) (vs : List ℚ) :
    vs.foldl Max.max v ∈ v :: vs ∧ ∀ y ∈ v :: vs, y ≤ vs.foldl Max.max v := by
  induction vs generalizing v with
  | nil => simp
  | cons w ws ih =>
    obtain ⟨hmem, hle⟩ := ih (Max.max v w)
    rw [List.foldl_cons]
    simp only [List.mem_cons] at hmem
    constructor
    · rcases hmem with h | h
      · rw [h]
        rcases max_choice v w with hc | hc <;> rw [hc]
        · exact List.mem_cons_self _ _
        · exact List.mem_cons_of_mem _ (List.mem_cons_self _ _)
      · exact List.mem_cons_of_mem _ (List.mem_cons_of_mem _ h)
    · intro y hy
      simp only [List.mem_cons] at hy
      rcases hy with rfl | rfl | h
      · exact le_trans (le_max_left _ _) (hle _ (List.mem_cons_self _ _))
      · exact le_trans (le_max_right _ _) (hle _ (List.mem_cons_self _ _))
      · exact hle y (List.mem_cons_of_mem _ h)

theorem pureBuild_cons (p : String) (m : List Agg) (r : Rec) (rs : List Rec) :
    pureBuild p m (r :: rs) =
      pureBuild p
        (match keptKV p r with
         | some (k, v) => insertRecord m k v
         | none => m) rs := rfl

theorem buildAgg_cons (p : String) (m : List Agg) (r : Rec) (rs : List Rec) :
    buildAgg p m (r :: rs) =
      if recOK r then
        buildAgg p
          (match keptKV p r with
           | some (k, v) => insertRecord m k v
           | none => m) rs
      else none := by
  rcases r with ⟨rd, rv⟩
  rcases rd with _ | dv <;> rcases rv with _ | v
  · rfl
  · rfl
  · rfl
  · by_cases ht : truthyD dv
    · rcases hp : parseD dv with _ | d <;>
        simp [buildAgg, recOK, keptKV, ht, hp]
    · simp [buildAgg, recOK, keptKV, ht]

theorem buildAgg_some_of_ok (p : String) (rs : List Rec) :
    ∀ m : List Agg, (∀ r ∈ rs, recOK r) →
      buildAgg p m rs = some (pureBuild p m rs) := by
  induction rs with
  | nil => intro m _; rfl
  | cons r rs ih =>
    intro m hok
    rw [buildAgg_cons, pureBuild_cons, if_pos (hok r (List.mem_cons_self _ _))]
    exact ih _ (fun x hx => hok x (List.mem_cons_of_mem _ hx))

theorem buildAgg_none_of_bad (p : String) (rs : List Rec) :
    ∀ m : List Agg, (∃ r ∈ rs, recOK r = false) → buildAgg p m rs = none := by
  induction rs with
  | nil => intro m h; simp at h
  | cons r rs ih =>
    intro m h
    rcases h with ⟨x, hx, hbad⟩
    rw [buildAgg_cons]
    rcases List.mem_cons.mp hx with rfl | hx
    · rw [hbad]; rfl
    · by_cases hr : recOK r
      · rw [if_pos hr]
        exact ih _ ⟨x, hx, hbad⟩
      · rw [if_neg hr]

theorem buildAgg_some_iff (p : String) (rs : List Rec) (m M : List Agg) :
    buildAgg p m rs = some M ↔ (∀ r ∈ rs, recOK r) ∧ M = pureBuild p m rs := by
  constructor
  · intro h
    by_cases hok : ∀ r ∈ rs, recOK r
    · refine ⟨hok, ?_⟩
      rw [buildAgg_some_of_ok p rs m hok] at h
      exact (Option.some_injective _ h).symm
    · push_neg at hok
      rcases hok with ⟨x, hx, hbad⟩
      rw [buildAgg_none_of_bad p rs m ⟨x, hx, Bool.not_eq_true _ ▸ eq_false_of_ne_true hbad⟩] at h
      cases h
  · rintro ⟨hok, rfl⟩
    exact buildAgg_some_of_ok p rs m hok

theorem keys_insertRecord (m : List Agg) (k : String) (v : ℚ) :
    (insertRecord m k v).map Agg.period =
      if k ∈ m.map Agg.period then m.map Agg.period
      else m.map Agg.period ++ [k] := by
  induction m with
  | nil => simp [insertRecord]
  | cons a rest ih =>
    by_cases hk : a.period = k
    · simp [insertRecord, hk]
    · simp only [insertRecord, if_neg hk, List.map_cons, ih, List.mem_cons]
      by_cases hmem : k ∈ rest.map Agg.period
      · simp [hmem, Ne.symm hk]
      · simp [hmem, Ne.symm hk]

theorem mem_keys_insertRecord (m : List Agg) (k k' : String) (v : ℚ) :
    k' ∈ (insertRecord m k v).map Agg.period ↔
      k' ∈ m.map Agg.period ∨ k' = k := by
  rw [keys_insertRecord]
  by_cases hmem : k ∈ m.map Agg.period
  · rw [if_pos hmem]
    constructor
    · exact Or.inl
    · rintro (h | rfl)
      · exact h
      · exact hmem
  · rw [if_neg hmem]
    simp [List.mem_append]

theorem nodup_keys_insertRecord (m : List Agg) (k : String) (v : ℚ)
    (h : (m.map Agg.period).Nodup) : ((insertRecord m k v).map Agg.period).Nodup := by
  rw [keys_insertRecord]
  by_cases hmem : k ∈ m.map Agg.period
  · rwa [if_pos hmem]
  · rw [if_neg hmem]
    refine List.Nodup.append h (List.nodup_singleton k) ?_
    intro a ha hb
    rw [List.mem_singleton] at hb
    subst hb
    exact hmem ha

theorem sumCounts_insertRecord (m : List Agg) (k : String) (v : ℚ) :
    ((insertRecord m k v).map Agg.count).sum = ((m.map Agg.count).sum) + 1 := by
  induction m with
  | nil => simp [insertRecord]
  | cons a rest ih =>
    by_cases hk : a.period = k
    · simp [insertRecord, hk]
      ring
    · simp [insertRecord, hk, ih]
      ring

theorem valsOf_insertRecord_same (m : List Agg) (k : String) (v : ℚ) :
    valsOf (insertRecord m k v) k = valsOf m k ++ [v] := by
  induction m with
  | nil => simp [insertRecord, valsOf, List.find?]
  | cons a rest ih =>
    by_cases hk : a.period = k
    · simp [insertRecord, valsOf, List.find?, hk]
    · simp only [insertRecord, if_neg hk]
      simpa [valsOf, List.find?, hk] using ih

theorem valsOf_insertRecord_other (m : List Agg) (k k' : String) (v : ℚ)
    (h : k' ≠ k) : valsOf (insertRecord m k v) k' = valsOf m k' := by
  have hkk : ¬ (k = k') := fun hh => h hh.symm
  induction m with
  | nil => simp [insertRecord, valsOf, List.find?, hkk]
  | cons a rest ih =>
    by_cases hk : a.period = k
    · have hk' : ¬ a.period = k' := by rw [hk]; exact fun hh => h hh.symm
      simp [insertRecord, valsOf, List.find?, hk, hk', hkk]
    · by_cases hk2 : a.period = k'
      · simp [insertRecord, valsOf, List.find?, hk, hk2, h, hkk]
      · simp only [insertRecord, if_neg hk]
        simpa [valsOf, List.find?, hk2] using ih

theorem counts_insertRecord (m : List Agg) (k : String) (v : ℚ)
    (h : ∀ a ∈ m, a.count = a.values.length) :
    ∀ a ∈ insertRecord m k v, a.count = a.values.length := by
  induction m with
  | nil =>
    intro a ha
    simp only [insertRecord] at ha
    rcases List.mem_singleton.mp ha with rfl
    rfl
  | cons b rest ih =>
    intro a ha
    by_cases hk : b.period = k
    · simp only [insertRecord, if_pos hk, List.mem_cons] at ha
      rcases ha with rfl | ha
      · have := h b (List.mem_cons_self _ _)
        simp [this]
      · exact h a (List.mem_cons_of_mem _ ha)
    · simp only [insertRecord, if_neg hk, List.mem_cons] at ha
      rcases ha with rfl | ha
      · exact h a (List.mem_cons_self _ _)
      · exact ih (fun x hx => h x (List.mem_cons_of_mem _ hx)) a ha

theorem valsOf_pureBuild (p : String) (rs : List Rec) :
    ∀ (m : List Agg) (k : String),
      valsOf (pureBuild p m rs) k = valsOf m k ++ groupVals p k rs := by
  induction rs with
  | nil => intro m k; simp [pureBuild, groupVals]
  | cons r rs ih =>
    intro m k
    rw [pureBuild_cons]
    rcases hkv : keptKV p r with _ | ⟨k', v⟩
    · have hg : groupVals p k (r :: rs) = groupVals p k rs := by
        simp [groupVals, List.filterMap_cons, hkv]
      rw [hg]
      exact ih m k
    · by_cases hk : k' = k
      · subst hk
        have hg : groupVals p k' (r :: rs) = v :: groupVals p k' rs := by
          simp [groupVals, List.filterMap_cons, hkv]
        rw [hg, ih (insertRecord m k' v) k', valsOf_insertRecord_same]
        simp
      · have hg : groupVals p k (r :: rs) = groupVals p k rs := by
          simp [groupVals, List.filterMap_cons, hkv, hk]
        rw [hg, ih (insertRecord m k' v) k, valsOf_insertRecord_other _ _ _ _ (Ne.symm hk)]

theorem nodup_keys_pureBuild (p : String) (rs : List Rec) :
    ∀ m : List Agg, ((m.map Agg.period)).Nodup →
      (((pureBuild p m rs).map Agg.period)).Nodup := by
  induction rs with
  | nil => intro m h; exact h
  | cons r rs ih =>
    intro m h
    rw [pureBuild_cons]
    rcases hkv : keptKV p r with _ | ⟨k', v⟩
    · exact ih m h
    · exact ih _ (nodup_keys_insertRecord m k' v h)

theorem counts_pureBuild (p : String) (rs : List Rec) :
    ∀ m : List Agg, (∀ a ∈ m, a.count = a.values.length) →
      ∀ a ∈ pureBuild p m rs, a.count = a.values.length := by
  induction rs with
  | nil => intro m h; exact h
  | cons r rs ih =>
    intro m h
    rw [pureBuild_cons]
    rcases hkv : keptKV p r with _ | ⟨k', v⟩
    · exact ih m h
    · exact ih _ (counts_insertRecord m k' v h)

theorem mem_keys_pureBuild (p : String) (rs : List Rec) :
    ∀ (m : List Agg) (k : String),
      k ∈ (pureBuild p m rs).map Agg.period ↔
        k ∈ m.map Agg.period ∨ k ∈ keptKeys p rs := by
  induction rs with
  | nil => intro m k; simp [pureBuild, keptKeys]
  | cons r rs ih =>
    intro m k
    rw [pureBuild_cons]
    rcases hkv : keptKV p r with _ | ⟨k', v⟩
    · have hk : keptKeys p (r :: rs) = keptKeys p rs := by
        simp [keptKeys, List.filterMap_cons, hkv]
      rw [hk]
      exact ih m k
    · have hk : keptKeys p (r :: rs) = k' :: keptKeys p rs := by
        simp [keptKeys, List.filterMap_cons, hkv]
      rw [hk, ih (insertRecord m k' v) k, mem_keys_insertRecord]
      simp only [List.mem_cons]
      tauto

theorem sumCounts_pureBuild (p : String) (rs : List Rec) :
    ∀ m : List Agg,
      ((pureBuild p m rs).map Agg.count).sum =
        ((m.map Agg.count).sum) + rs.countP (fun r => (keptKV p r).isSome) := by
  induction rs with
  | nil => intro m; simp [pureBuild]
  | cons r rs ih =>
    intro m
    rw [pureBuild_cons]
    rcases hkv : keptKV p r with _ | ⟨k', v⟩
    · rw [ih m, List.countP_cons]
      simp [hkv]
    · rw [ih (insertRecord m k' v), sumCounts_insertRecord, List.countP_cons]
      simp [hkv]
      ring

theorem find?_of_mem_nodup (m : List Agg) (a : Agg)
    (hnd : (m.map Agg.period).Nodup) (ha : a ∈ m) :
    m.find? (fun x => x.period = a.period) = some a := by
  induction m with
  | nil => cases ha
  | cons b rest ih =>
    rcases List.mem_cons.mp ha with rfl | ha
    · rw [List.find?_cons_of_pos _ (by simp)]
    · have hb : b.period ≠ a.period := by
        intro h
        have : a.period ∈ rest.map Agg.period := List.mem_map_of_mem _ ha
        rw [← h] at this
        exact (List.nodup_cons.mp (by simpa using hnd)).1 this
      rw [List.find?_cons_of_neg _ (by simp [hb])]
      exact ih (List.nodup_cons.mp (by simpa using hnd)).2 ha

theorem entry_shape (p : String) (data : List Rec) (a : Agg)
    (ha : a ∈ pureBuild p [] data) :
    a.values = groupVals p a.period data ∧
      a.count = (groupVals p a.period data).length := by
  have hnd : ((pureBuild p [] data).map Agg.period).Nodup :=
    nodup_keys_pureBuild p data [] (by simp)
  have hfind := find?_of_mem_nodup _ a hnd ha
  have hv : valsOf (pureBuild p [] data) a.period = a.values := by
    rw [valsOf, hfind]; rfl
  have hvg := valsOf_pureBuild p data [] a.period
  rw [hv] at hvg
  have hvals : a.values = groupVals p a.period data := by
    simpa [valsOf, List.find?] using hvg
  have hcnt := counts_pureBuild p data [] (by simp) a ha
  exact ⟨hvals, hvals ▸ hcnt⟩

theorem sorted_keys_finalize (m : List Agg) :
    ((finalizeAgg m).map Bucket.period).Sorted (· ≤ ·) := by
  have hs : (List.insertionSort aggLe m).Sorted aggLe :=
    List.sorted_insertionSort aggLe m
  unfold finalizeAgg
  rw [List.map_map]
  exact List.Pairwise.map _ (fun a b h => h) hs

theorem canonKeys_sorted (p : String) (rs : List Rec) :
    (canonKeys p rs).Sorted (· ≤ ·) :=
  List.sorted_insertionSort _ _

theorem canonKeys_nodup (p : String) (rs : List Rec) :
    (canonKeys p rs).Nodup :=
  ((List.perm_insertionSort _ _).nodup_iff).mpr (List.nodup_dedup _)

theorem mem_canonKeys (p : String) (rs : List Rec) (k : String) :
    k ∈ canonKeys p rs ↔ k ∈ keptKeys p rs := by
  unfold canonKeys
  rw [(List.perm_insertionSort _ _).mem_iff, List.mem_dedup]

/-- What `aggregate_by_period` computes when no record raises: the canonical
bucket list. -/
theorem aggregate_canon (p : String) (data : List Rec)
    (hok : ∀ r ∈ data, recOK r) :
    aggregate_by_period data p = some (canonAgg p data) := by
  unfold aggregate_by_period
  by_cases hemp : data.isEmpty
  · rw [if_pos hemp]
    have : data = [] := List.isEmpty_iff.mp hemp
    subst this
    simp [canonAgg, canonKeys, keptKeys]
  · rw [if_neg hemp, buildAgg_some_of_ok p data [] hok, Option.map_some']
    congr 1
    set M := pureBuild p [] data with hM
    set S := List.insertionSort aggLe M with hS
    have hnd : (M.map Agg.period).Nodup := nodup_keys_pureBuild p data [] (by simp)
    have hperm : List.Perm S M := List.perm_insertionSort _ _
    have hndS : (S.map Agg.period).Nodup := ((hperm.map _).nodup_iff).mpr hnd
    have hsortS : (S.map Agg.period).Sorted (· ≤ ·) := by
      have hs : S.Sorted aggLe := List.sorted_insertionSort aggLe M
      exact List.Pairwise.map _ (fun a b h => h) hs
    have hkeys : S.map Agg.period = canonKeys p data := by
      apply List.eq_of_perm_of_sorted _ hsortS (canonKeys_sorted p data)
      rw [List.perm_ext_iff_of_nodup hndS (canonKeys_nodup p data)]
      intro k
      rw [mem_canonKeys, (hperm.map _).mem_iff, hM, mem_keys_pureBuild]
      simp
    have hmap : ∀ a ∈ S,
        (⟨a.period, round2 (qmean a.values), a.count⟩ : Bucket) =
          canonBucket p data a.period := by
      intro a ha
      have haM : a ∈ M := hperm.mem_iff.mp ha
      obtain ⟨hv, hc⟩ := entry_shape p data a haM
      unfold canonBucket
      rw [hv, hc]
    have h1 : S.map (fun a => (⟨a.period, round2 (qmean a.values), a.count⟩ : Bucket))
        = S.map (fun a => canonBucket p data a.period) := List.map_congr_left hmap
    have h2 : S.map (fun a => canonBucket p data a.period)
        = (S.map Agg.period).map (canonBucket p data) := by
      rw [List.map_map]
      rfl
    unfold finalizeAgg
    rw [← hS, h1, h2, hkeys]
    rfl

theorem keptKV_isSome_of_ok (p : String) (r : Rec) (h : recOK r) :
    (keptKV p r).isSome = keptB r := by
  unfold recOK at h
  unfold keptKV keptB
  rcases hd : r.date with _ | dv <;> rcases hv : r.value with _ | v <;>
    simp only [hd, hv] at h ⊢ <;> try rfl
  by_cases ht : truthyD dv
  · simp only [ht, Bool.not_true, Bool.false_or] at h
    rcases hp : parseD dv with _ | d
    · rw [hp] at h; simp at h
    · simp [ht, hp]
  · simp [ht]

/-- The count conservation of `aggregate_by_period`: when it returns, the
bucket counts sum to the number of kept records. -/
theorem aggregate_sumCounts (p : String) (data : List Rec) (bs : List Bucket)
    (h : aggregate_by_period data p = some bs) :
    (bs.map Bucket.count).sum = data.countP keptB := by
  unfold aggregate_by_period at h
  by_cases hemp : data.isEmpty
  · rw [if_pos hemp] at h
    have hbs : bs = [] := (Option.some_injective _ h).symm
    have hdata : data = [] := List.isEmpty_iff.mp hemp
    subst hbs; subst hdata
    rfl
  · rw [if_neg hemp] at h
    rcases hb : buildAgg p [] data with _ | M
    · rw [hb] at h; cases h
    · rw [hb, Option.map_some'] at h
      have hbs : bs = finalizeAgg M := (Option.some_injective _ h).symm
      obtain ⟨hok, hMeq⟩ := (buildAgg_some_iff p data [] M).mp hb
      subst hbs
      have hperm : List.Perm (List.insertionSort aggLe M) M :=
        List.perm_insertionSort _ _
      have h1 : ((finalizeAgg M).map Bucket.count) =
          (List.insertionSort aggLe M).map Agg.count := by
        unfold finalizeAgg
        rw [List.map_map]
        rfl
      have h2 : List.countP (fun r => (keptKV p r).isSome) data =
          List.countP keptB data := by
        apply List.countP_congr
        intro r hr
        simp [keptKV_isSome_of_ok p r (hok r hr)]
      rw [h1, (hperm.map Agg.count).sum_eq, hMeq, sumCounts_pureBuild]
      simpa using h2

theorem canonAgg_perm (p : String) {data data' : List Rec}
    (h : List.Perm data data') : canonAgg p data = canonAgg p data' := by
  have hkept : List.Perm (keptKeys p data) (keptKeys p data') := h.filterMap _
  have hkeys : canonKeys p data = canonKeys p data' := by
    apply List.eq_of_perm_of_sorted _ (canonKeys_sorted p data)
      (canonKeys_sorted p data')
    exact ((List.perm_insertionSort _ _).trans hkept.dedup).trans
      (List.perm_insertionSort _ _).symm
  have hbucket : ∀ k, canonBucket p data k = canonBucket p data' k := by
    intro k
    have hg : List.Perm (groupVals p k data) (groupVals p k data') :=
      h.filterMap _
    unfold canonBucket qmean
    rw [hg.sum_eq, hg.length_eq]
  unfold canonAgg
  rw [hkeys]
  exact List.map_congr_left (fun k _ => hbucket k)

theorem aggregate_perm (p : String) {data data' : List Rec}
    (h : List.Perm data data') :
    aggregate_by_period data p = aggregate_by_period data' p := by
  by_cases hok : ∀ r ∈ data, recOK r
  · have hok' : ∀ r ∈ data', recOK r := fun r hr => hok r (h.mem_iff.mpr hr)
    rw [aggregate_canon p data hok, aggregate_canon p data' hok',
      canonAgg_perm p h]
  · push_neg at hok
    rcases hok with ⟨x, hx, hbad⟩
    have hbad' : recOK x = false := by
      simpa using hbad
    have hne : ¬ data.isEmpty := by
      rcases data with _ | ⟨r, rs⟩
      · cases hx
      · simp
    have hne' : ¬ data'.isEmpty := by
      have hx' : x ∈ data' := h.mem_iff.mp hx
      rcases data' with _ | ⟨r, rs⟩
      · cases hx'
      · simp
    unfold aggregate_by_period
    rw [if_neg hne, if_neg hne',
      buildAgg_none_of_bad p data [] ⟨x, hx, hbad'⟩,
      buildAgg_none_of_bad p data' [] ⟨x, h.mem_iff.mp hx, hbad'⟩]

theorem digitChar_isDigit (n : ℕ) : (digitChar n).isDigit = true := by
  unfold digitChar
  split <;> rfl

theorem dval_digitChar (n : ℕ) : dval (digitChar n) = n % 10 := by
  have h10 : n % 10 < 10 := Nat.mod_lt _ (by norm_num)
  rcases h : n % 10 with _|_|_|_|_|_|_|_|_|m <;>
    first
      | (simp only [digitChar, h]; decide)
      | (have hm : m = 0 := by omega
         subst hm
         simp only [digitChar, h]
         decide)

theorem fmtDay_ne_empty (d : Date) : fmtDay d ≠ "" := by
  intro h
  have := congrArg String.data h
  simp [fmtDay, digits4, digits2] at this

theorem fromiso_valid (s : String) (d : Date) (h : fromiso s = some d) :
    ValidDate d := by
  unfold fromiso at h
  rcases hs : s.data with _ | ⟨y1, t⟩ <;> rw [hs] at h
  · cases h
  all_goals (
    rcases t with _ | ⟨y2, t⟩ <;> try cases h
    rcases t with _ | ⟨y3, t⟩ <;> try cases h
    rcases t with _ | ⟨y4, t⟩ <;> try cases h
    rcases t with _ | ⟨h1, t⟩ <;> try cases h
    rcases t with _ | ⟨a1, t⟩ <;> try cases h
    rcases t with _ | ⟨a2, t⟩ <;> try cases h
    rcases t with _ | ⟨h2, t⟩ <;> try cases h
    rcases t with _ | ⟨b1, t⟩ <;> try cases h
    rcases t with _ | ⟨b2, t⟩ <;> try cases h
    rcases t with _ | ⟨c, t⟩
    case _ =>
      simp only [fromiso] at h
      by_cases hcond : (h1 = '-' && h2 = '-' && y1.isDigit && y2.isDigit &&
          y3.isDigit && y4.isDigit && a1.isDigit && a2.isDigit && b1.isDigit &&
          b2.isDigit) = true
      · rw [if_pos hcond] at h
        set y := 1000 * dval y1 + 100 * dval y2 + 10 * dval y3 + dval y4 with hy
        set mo := 10 * dval a1 + dval a2 with hmo
        set da := 10 * dval b1 + dval b2 with hda
        by_cases hv : 1 ≤ y ∧ 1 ≤ mo ∧ mo ≤ 12 ∧ 1 ≤ da ∧ da ≤ daysInMonth y mo
        · rw [if_pos hv] at h
          have hd : d = ⟨y, mo, da⟩ := (Option.some_injective _ h).symm
          subst hd
          have hy1 : dval y1 ≤ 9 := by
            have := hcond
            simp only [Bool.and_eq_true] at this
            have hdig : y1.isDigit = true := this.1.1.1.1.1.1.1.2
            unfold Char.isDigit at hdig
            simp only [Bool.and_eq_true, decide_eq_true_eq] at hdig
            unfold dval
            have h9 : y1.toNat ≤ 57 := hdig.2
            omega
          have hy2 : dval y2 ≤ 9 := by
            have := hcond
            simp only [Bool.and_eq_true] at this
            have hdig : y2.isDigit = true := this.1.1.1.1.1.1.2
            unfold Char.isDigit at hdig
            simp only [Bool.and_eq_true, decide_eq_true_eq] at hdig
            unfold dval
            have h9 : y2.toNat ≤ 57 := hdig.2
            omega
          have hy3 : dval y3 ≤ 9 := by
            have := hcond
            simp only [Bool.and_eq_true] at this
            have hdig : y3.isDigit = true := this.1.1.1.1.1.2
            unfold Char.isDigit at hdig
            simp only [Bool.and_eq_true, decide_eq_true_eq] at hdig
            unfold dval
            have h9 : y3.toNat ≤ 57 := hdig.2
            omega
          have hy4 : dval y4 ≤ 9 := by
            have := hcond
            simp only [Bool.and_eq_true] at this
            have hdig : y4.isDigit = true := this.1.1.1.1.2
            unfold Char.isDigit at hdig
            simp only [Bool.and_eq_true, decide_eq_true_eq] at hdig
            unfold dval
            have h9 : y4.toNat ≤ 57 := hdig.2
            omega
          refine ⟨hv.1, ?_, hv.2.1, hv.2.2.1, hv.2.2.2.1, hv.2.2.2.2⟩
          show y ≤ 9999
          rw [hy]
          omega
        · rw [if_neg hv] at h; cases h
      · rw [if_neg hcond] at h; cases h
    case _ => cases h)

theorem fromiso_fmtDay (d : Date) (h : ValidDate d) :
    fromiso (fmtDay d) = some d := by
  obtain ⟨hy1, hy2, hm1, hm2, hd1, hd2⟩ := h
  have hdm : daysInMonth d.year d.month ≤ 31 := by
    unfold daysInMonth
    split <;> split <;> norm_num
  unfold fromiso fmtDay
  simp only [digits4, digits2, List.cons_append, List.nil_append]
  rw [if_pos (by simp [digitChar_isDigit])]
  have e1 : 1000 * dval (digitChar (d.year / 1000)) +
      100 * dval (digitChar (d.year / 100)) + 10 * dval (digitChar (d.year / 10)) +
      dval (digitChar d.year) = d.year := by
    simp only [dval_digitChar]
    omega
  have e2 : 10 * dval (digitChar (d.month / 10)) + dval (digitChar d.month) =
      d.month := by
    simp only [dval_digitChar]
    omega
  have e3 : 10 * dval (digitChar (d.day / 10)) + dval (digitChar d.day) =
      d.day := by
    simp only [dval_digitChar]
    omega
  rw [e1, e2, e3]
  rw [if_pos ⟨hy1, hm1, hm2, hd1, hd2⟩]

theorem weekday_split (d : Date) :
    weekdayMon0 d = (weekdayMon0 ⟨d.year, 1, 1⟩ + dayOfYear0 d) % 7 := by
  unfold weekdayMon0 totalDays0
  have h1 : dayOfYear0 ⟨d.year, 1, 1⟩ = 0 := by
    unfold dayOfYear0 daysBeforeMonth
    simp
  simp only [h1, Nat.add_zero]
  omega

theorem weekW_count_aux (w0 : ℕ) (hw : w0 < 7) :
    ∀ n : ℕ, (n + 7 - (w0 + n) % 7) / 7 =
      (List.range (n + 1)).countP (fun j => (w0 + j) % 7 = 0) := by
  intro n
  induction n with
  | zero =>
    have hr : List.range 1 = [0] := by decide
    rw [hr]
    have hsing : List.countP (fun j => (w0 + j) % 7 = 0) [0] =
        if (w0 + 0) % 7 = 0 then 1 else 0 := by
      by_cases hz : (w0 + 0) % 7 = 0 <;> simp [List.countP_cons, hz]
    rw [hsing]
    by_cases hz : (w0 + 0) % 7 = 0
    · rw [if_pos hz]
      omega
    · rw [if_neg hz]
      omega
  | succ n ih =>
    rw [List.range_succ, List.countP_append, ← ih]
    have hsing : List.countP (fun j => (w0 + j) % 7 = 0) [n + 1] =
        if (w0 + (n + 1)) % 7 = 0 then 1 else 0 := by
      by_cases hz : (w0 + (n + 1)) % 7 = 0 <;> simp [List.countP_cons, hz]
    rw [hsing]
    by_cases hz : (w0 + (n + 1)) % 7 = 0
    · rw [if_pos hz]
      omega
    · rw [if_neg hz]
      omega

/-- `%W` counts the Mondays of the year up to and including the date: weeks
begin on Monday and the days before the year's first Monday are week 00. -/
theorem weekW_eq_countMondays (d : Date) :
    weekW d = (List.range (dayOfYear0 d + 1)).countP
      (fun j => (weekdayMon0 ⟨d.year, 1, 1⟩ + j) % 7 = 0) := by
  unfold weekW
  rw [weekday_split d]
  exact weekW_count_aux (weekdayMon0 ⟨d.year, 1, 1⟩) (Nat.mod_lt _ (by norm_num))
    (dayOfYear0 d)

theorem periodKey_day (d : Date) : periodKey "day" d = fmtDay d := by
  simp [periodKey]

theorem filterMap_eq_map_of_forall {α β : Type} (l : List α) (f : α → Option β)
    (g : α → β) (h : ∀ x ∈ l, f x = some (g x)) : l.filterMap f = l.map g := by
  induction l with
  | nil => rfl
  | cons a t ih =>
    rw [List.filterMap_cons, h a (List.mem_cons_self _ _), List.map_cons]
    rw [ih (fun x hx => h x (List.mem_cons_of_mem _ hx))]

theorem keptKV_bucketToRec (b : Bucket) (dd : Date) (hv : ValidDate dd)
    (hp : b.period = fmtDay dd) :
    keptKV "day" (bucketToRec b) = some (b.period, b.average) := by
  unfold keptKV bucketToRec
  simp only
  have ht : truthyD (DVal.dstr b.period) = true := by
    unfold truthyD
    rw [hp]
    simp [fmtDay_ne_empty dd]
  rw [if_pos ht]
  have hparse : parseD (DVal.dstr b.period) = some dd := by
    unfold parseD
    rw [hp]
    exact fromiso_fmtDay dd hv
  rw [hparse, Option.map_some', periodKey_day, ← hp]

theorem map_period_canonAgg (p : String) (data : List Rec) :
    (canonAgg p data).map Bucket.period = canonKeys p data := by
  unfold canonAgg
  rw [List.map_map]
  have : (Bucket.period ∘ canonBucket p data) = id := by
    funext k
    rfl
  rw [this, List.map_id]

theorem groupVals_bucketRecs (k : String) (v : ℚ) (bs : List Bucket)
    (hkv : ∀ b ∈ bs, keptKV "day" (bucketToRec b) = some (b.period, b.average))
    (hnd : (bs.map Bucket.period).Nodup) (b0 : Bucket) (hb0 : b0 ∈ bs)
    (hk : k = b0.period) (hv : v = b0.average) :
    groupVals "day" k (bs.map bucketToRec) = [v] := by
  subst hk; subst hv
  induction bs with
  | nil => cases hb0
  | cons b t ih =>
    rw [List.map_cons]
    unfold groupVals
    rw [List.filterMap_cons]
    rcases List.mem_cons.mp hb0 with rfl | hb0t
    · rw [hkv b0 (List.mem_cons_self _ _)]
      simp only [if_pos rfl]
      have hrest : List.filterMap
          (fun r => match keptKV "day" r with
            | some (k', v') => if k' = b0.period then some v' else none
            | none => none) (t.map bucketToRec) = [] := by
        rw [List.filterMap_eq_nil_iff]
        intro r hr
        rcases List.mem_map.mp hr with ⟨c, hc, rfl⟩
        rw [hkv c (List.mem_cons_of_mem _ hc)]
        have hne : c.period ≠ b0.period := by
          intro hcp
          have h1 : b0.period ∈ t.map Bucket.period := by
            rw [← hcp]
            exact List.mem_map_of_mem _ hc
          exact (List.nodup_cons.mp (by simpa using hnd)).1 h1
        simp [hne]
      rw [hrest]
      simp
    · have hbne : b.period ≠ b0.period := by
        intro hcp
        have h1 : b.period ∈ t.map Bucket.period := by
          rw [hcp]
          exact List.mem_map_of_mem _ hb0t
        exact (List.nodup_cons.mp (by simpa using hnd)).1 h1
      rw [hkv b (List.mem_cons_self _ _)]
      simp only [if_neg hbne]
      exact ih (fun c hc => hkv c (List.mem_cons_of_mem _ hc))
        (List.nodup_cons.mp (by simpa using hnd)).2 hb0t

theorem recOK_of_keptKV_some (p : String) (r : Rec) (kv : String × ℚ)
    (h : keptKV p r = some kv) : recOK r = true := by
  unfold keptKV at h
  unfold recOK
  rcases hd : r.date with _ | dv <;> rcases hv : r.value with _ | v <;>
    rw [hd, hv] at h
  simp only at h ⊢
  by_cases ht : truthyD dv
  · rw [if_pos ht] at h
    rcases hp : parseD dv with _ | d
    · rw [hp] at h; cases h
    · simp [ht, hp]
  · simp [ht]

theorem aggregate_bucketRecs (bs : List Bucket)
    (hkeys : ∀ b ∈ bs, ∃ dd : Date, ValidDate dd ∧ b.period = fmtDay dd)
    (havg : ∀ b ∈ bs, round2 b.average = b.average)
    (hnd : (bs.map Bucket.period).Nodup)
    (hsort : (bs.map Bucket.period).Sorted (· ≤ ·)) :
    aggregate_by_period (bs.map bucketToRec) "day" = some (bs.map resetCount) := by
  have hkv : ∀ b ∈ bs, keptKV "day" (bucketToRec b) = some (b.period, b.average) := by
    intro b hb
    obtain ⟨dd, hvd, hp⟩ := hkeys b hb
    exact keptKV_bucketToRec b dd hvd hp
  have hok : ∀ r ∈ bs.map bucketToRec, recOK r := by
    intro r hr
    rcases List.mem_map.mp hr with ⟨b, hb, rfl⟩
    exact recOK_of_keptKV_some "day" _ _ (hkv b hb)
  rw [aggregate_canon "day" (bs.map bucketToRec) hok]
  congr 1
  have hkk : keptKeys "day" (bs.map bucketToRec) = bs.map Bucket.period := by
    unfold keptKeys
    rw [List.filterMap_map]
    apply filterMap_eq_map_of_forall
    intro b hb
    simp only [Function.comp]
    rw [hkv b hb]
    rfl
  have hck : canonKeys "day" (bs.map bucketToRec) = bs.map Bucket.period := by
    unfold canonKeys
    rw [hkk, List.Nodup.dedup hnd]
    exact List.Sorted.insertionSort_eq hsort
  unfold canonAgg
  rw [hck]
  have hbk : ∀ b ∈ bs, canonBucket "day" (bs.map bucketToRec) b.period =
      resetCount b := by
    intro b hb
    unfold canonBucket
    rw [groupVals_bucketRecs b.period b.average bs hkv hnd b hb rfl rfl]
    unfold resetCount qmean
    have : ([b.average].sum / (([b.average].length : ℕ) : ℚ)) = b.average := by
      simp
    rw [List.length_singleton]
    simp only [List.sum_singleton, Nat.cast_one, div_one]
    rw [havg b hb]
  calc (bs.map Bucket.period).map (canonBucket "day" (bs.map bucketToRec))
      = bs.map (fun b => canonBucket "day" (bs.map bucketToRec) b.period) := by
        rw [List.map_map]
        rfl
    _ = bs.map resetCount := List.map_congr_left hbk

theorem keptKeys_day_fmtDay (data : List Rec)
    (hvalid : ∀ r ∈ data, ∀ d : Date, r.date = some (DVal.ddt d) → ValidDate d) :
    ∀ k ∈ keptKeys "day" data, ∃ dd : Date, ValidDate dd ∧ k = fmtDay dd := by
  intro k hk
  unfold keptKeys at hk
  rcases List.mem_filterMap.mp hk with ⟨r, hr, hsome⟩
  rcases hmap : keptKV "day" r with _ | ⟨k', v⟩ <;> rw [hmap] at hsome
  · cases hsome
  rw [Option.map_some'] at hsome
  have hk' : k' = k := by
    have := Option.some_injective _ hsome
    simpa using this
  subst hk'
  unfold keptKV at hmap
  rcases hd : r.date with _ | dv <;> rw [hd] at hmap
  · cases hmap
  rcases hv : r.value with _ | v0 <;> rw [hv] at hmap
  · cases hmap
  simp only at hmap
  by_cases ht : truthyD dv
  · rw [if_pos ht] at hmap
    rcases hp : parseD dv with _ | d <;> rw [hp] at hmap
    · cases hmap
    rw [Option.map_some'] at hmap
    have hkd : k' = periodKey "day" d := by
      have := Option.some_injective _ hmap
      exact (congrArg Prod.fst this).symm
    have hvd : ValidDate d := by
      rcases dv with s | d0
      · exact fromiso_valid s d (by simpa [parseD] using hp)
      · have hd0 : d = d0 := by simpa [parseD] using hp.symm
        subst hd0
        exact hvalid r hr d hd
    exact ⟨d, hvd, by rw [hkd, periodKey_day]⟩
  · rw [if_neg ht] at hmap
    cases hmap

/-- Re-aggregating a day-period bucket list (period as date field, average as
value field) keeps every period key and average but resets every count to 1. -/
theorem aggregate_reaggregate_day (data : List Rec) (bs : List Bucket)
    (hvalid : ∀ r ∈ data, ∀ d : Date, r.date = some (DVal.ddt d) → ValidDate d)
    (h : aggregate_by_period data "day" = some bs) :
    aggregate_by_period (bs.map bucketToRec) "day" = some (bs.map resetCount) := by
  by_cases hemp : data.isEmpty
  · unfold aggregate_by_period at h
    rw [if_pos hemp] at h
    have hbs : bs = [] := (Option.some_injective _ h).symm
    subst hbs
    rfl
  · have h0 := h
    unfold aggregate_by_period at h0
    rw [if_neg hemp] at h0
    rcases hb : buildAgg "day" [] data with _ | M <;> rw [hb] at h0
    · cases h0
    obtain ⟨hok, _⟩ := (buildAgg_some_iff _ _ _ _).mp hb
    have hc := aggregate_canon "day" data hok
    have hbs : bs = canonAgg "day" data := by
      rw [h] at hc
      exact Option.some_injective _ hc
    subst hbs
    apply aggregate_bucketRecs
    · intro b hb'
      have hmem : b.period ∈ (canonAgg "day" data).map Bucket.period :=
        List.mem_map_of_mem _ hb'
      rw [map_period_canonAgg, mem_canonKeys] at hmem
      exact keptKeys_day_fmtDay data hvalid b.period hmem
    · intro b hb'
      rcases List.mem_map.mp hb' with ⟨k, hk, rfl⟩
      exact round2_round2 _
    · rw [map_period_canonAgg]
      exact canonKeys_nodup _ _
    · rw [map_period_canonAgg]
      exact canonKeys_sorted _ _

theorem length_sortBodyDesc (l : List BodyRec) :
    (sortBodyDesc l).length = l.length :=
  List.length_insertionSort _ _

theorem qmean_pair : qmean [(1 : ℚ), 3] = 2 := by
  unfold qmean
  norm_num

theorem round2_two : round2 (2 : ℚ) = 2 := by
  rw [round2_intVal (by norm_num : (2 : ℚ) * 100 = ((200 : ℤ) : ℚ))]
  norm_num

theorem eval_agg_AB :
    aggregate_by_period [recA, recB] "day" = some [bucketAB] := by
  have hbuild : buildAgg "day" [] [recA, recB] =
      some [⟨"2023-01-05", [1, 3], 2⟩] := by decide
  unfold aggregate_by_period
  rw [if_neg (by decide), hbuild, Option.map_some']
  have hfin : finalizeAgg [⟨"2023-01-05", [1, 3], 2⟩] =
      [⟨"2023-01-05", round2 (qmean [1, 3]), 2⟩] := rfl
  rw [hfin, qmean_pair, round2_two]
  rfl

theorem eval_reagg_AB :
    aggregate_by_period ([bucketAB].map bucketToRec) "day" =
      some [⟨"2023-01-05", 2, 1⟩] := by
  have hbuild : buildAgg "day" [] ([bucketAB].map bucketToRec) =
      some [⟨"2023-01-05", [2], 1⟩] := by decide
  unfold aggregate_by_period
  rw [if_neg (by decide), hbuild, Option.map_some']
  have hfin : finalizeAgg [⟨"2023-01-05", [2], 1⟩] =
      [⟨"2023-01-05", round2 (qmean [2]), 1⟩] := rfl
  rw [hfin]
  have hq : qmean [(2 : ℚ)] = 2 := by
    unfold qmean
    norm_num
  rw [hq, round2_two]

/-- C1: `calculate_statistics` returns all-zero fields on the empty list, and
otherwise the minimum, the maximum, the arithmetic mean, and the median
(middle element of the sorted list, or the average of the two middle elements
for an even count), each rounded to 2 decimal places. -/
theorem claim_C1_statistics :
    calculate_statistics [] = ⟨0, 0, 0, 0⟩ ∧
    ∀ (v : ℚ) (vs : List ℚ),
      (∃ m, m ∈ v :: vs ∧ (∀ y ∈ v :: vs, m ≤ y) ∧
        (calculate_statistics (v :: vs)).min = round2 m) ∧
      (∃ M, M ∈ v :: vs ∧ (∀ y ∈ v :: vs, y ≤ M) ∧
        (calculate_statistics (v :: vs)).max = round2 M) ∧
      (calculate_statistics (v :: vs)).average =
        round2 ((v :: vs).sum / ((v :: vs).length : ℚ)) ∧
      ∃ s : List ℚ, List.Perm s (v :: vs) ∧ s.Sorted (· ≤ ·) ∧
        (calculate_statistics (v :: vs)).median =
          round2 (if s.length % 2 = 1 then s.getD (s.length / 2) 0
            else (s.getD (s.length / 2 - 1) 0 + s.getD (s.length / 2) 0) / 2) := by
  refine ⟨rfl, ?_⟩
  intro v vs
  obtain ⟨hmn, hmnle⟩ := foldl_min_spec v vs
  obtain ⟨hmx, hmxle⟩ := foldl_max_spec v vs
  refine ⟨⟨vs.foldl Min.min v, hmn, hmnle, rfl⟩,
    ⟨vs.foldl Max.max v, hmx, hmxle, rfl⟩, rfl,
    ⟨List.insertionSort (· ≤ ·) (v :: vs), List.perm_insertionSort _ _,
      List.sorted_insertionSort _ _, rfl⟩⟩

/-- C2: `calculate_change` returns `{absolute: 0, percentage: 0}` whenever
either input is absent or the old value is 0, and otherwise the rounded
difference and the rounded percentage change `(new - old) / old * 100`;
including the spec's worked examples. -/
theorem claim_C2_change :
    (∀ old_value new_value : Option ℚ,
      (old_value = none ∨ new_value = none ∨ old_value = some 0) →
        calculate_change old_value new_value = ⟨0, 0⟩) ∧
    (∀ o n : ℚ, o ≠ 0 →
      calculate_change (some o) (some n) =
        ⟨round2 (n - o), round2 ((n - o) / o * 100)⟩) ∧
    calculate_change (some 100) (some 150) = ⟨50, 50⟩ ∧
    calculate_change (some 0) (some 50) = ⟨0, 0⟩ ∧
    calculate_change none (some 50) = ⟨0, 0⟩ := by
  refine ⟨?_, ?_, ?_, ?_, ?_⟩
  · rintro old_value new_value (rfl | rfl | rfl)
    · rfl
    · rcases old_value with _ | o
      · rfl
      · rfl
    · rcases new_value with _ | n
      · rfl
      · show (if (0 : ℚ) = 0 then (⟨0, 0⟩ : ChangeResult)
            else ⟨round2 (n - 0), round2 ((n - 0) / 0 * 100)⟩) = ⟨0, 0⟩
        rw [if_pos rfl]
  · intro o n ho
    show (if o = 0 then (⟨0, 0⟩ : ChangeResult)
        else ⟨round2 (n - o), round2 ((n - o) / o * 100)⟩) = _
    rw [if_neg ho]
  · show (if (100 : ℚ) = 0 then (⟨0, 0⟩ : ChangeResult)
        else ⟨round2 ((150 : ℚ) - 100), round2 (((150 : ℚ) - 100) / 100 * 100)⟩) =
      ⟨50, 50⟩
    rw [if_neg (by norm_num)]
    have h1 : round2 ((150 : ℚ) - 100) = 50 := by
      rw [round2_intVal (by norm_num : ((150 : ℚ) - 100) * 100 = ((5000 : ℤ) : ℚ))]
      norm_num
    have h2 : round2 (((150 : ℚ) - 100) / 100 * 100) = 50 := by
      rw [round2_intVal
        (by norm_num : ((150 : ℚ) - 100) / 100 * 100 * 100 = ((5000 : ℤ) : ℚ))]
      norm_num
    rw [h1, h2]
  · show (if (0 : ℚ) = 0 then (⟨0, 0⟩ : ChangeResult)
        else ⟨round2 ((50 : ℚ) - 0), round2 (((50 : ℚ) - 0) / 0 * 100)⟩) = ⟨0, 0⟩
    rw [if_pos rfl]
  · rfl

/-- C2 witness: the theorem applied at `(none, 5)` and `(2, 3)`. -/
theorem claim_C2_change_witness :
    calculate_change none (some 5) = ⟨0, 0⟩ ∧
    calculate_change (some 2) (some 3) =
      ⟨round2 ((3 : ℚ) - 2), round2 (((3 : ℚ) - 2) / 2 * 100)⟩ :=
  ⟨claim_C2_change.1 none (some 5) (Or.inl rfl),
    claim_C2_change.2.1 2 3 (by norm_num)⟩

/-- C3 counterexample: the MET table has 18 entries, not 19 as the claim
states. -/
theorem claim_C3_counterexample :
    MET_VALUES.length = 18 ∧ MET_VALUES.length ≠ 19 := by
  constructor
  · rfl
  · intro h
    cases h

/-- C3 (amended to the 18-entry table the claim itself lists):
`calculate_calories_burned` normalizes the activity name (lowercase, spaces to
underscores), looks it up in the fixed MET table with default MET 5.0, and
returns `round(MET * weight * duration / 60)` with ties to even; including
the spec's worked examples. -/
theorem claim_C3_calories :
    MET_VALUES.length = 18 ∧
    (∀ (t : String) (dur w : ℚ),
      calculate_calories_burned t dur w =
        pythonRound (metFor (normalizeActivity t) * w * (dur / 60))) ∧
    metFor "running" = 9.8 ∧ metFor "jogging" = 7 ∧ metFor "walking" = 3.5 ∧
    metFor "cycling" = 7.5 ∧ metFor "swimming" = 8 ∧
    metFor "strength_training" = 6 ∧ metFor "weightlifting" = 6 ∧
    metFor "yoga" = 3 ∧ metFor "pilates" = 3.5 ∧ metFor "hiit" = 10 ∧
    metFor "dancing" = 5 ∧ metFor "basketball" = 6.5 ∧ metFor "soccer" = 7 ∧
    metFor "tennis" = 7.3 ∧ metFor "hiking" = 6 ∧ metFor "elliptical" = 7 ∧
    metFor "rowing" = 8.5 ∧ metFor "climbing" = 8 ∧
    metFor "unknown_sport" = 5 ∧
    normalizeActivity "Strength Training" = "strength_training" ∧
    calculate_calories_burned "running" 30 70 = 343 ∧
    calculate_calories_burned "unknown_sport" 60 70 = 350 := by
  have hex1 : calculate_calories_burned "running" 30 70 = 343 := by
    have hn : normalizeActivity "running" = "running" := by decide
    show pythonRound (metFor (normalizeActivity "running") * 70 * (30 / 60)) = 343
    rw [hn]
    have hm : metFor "running" = 9.8 := by simp [metFor, MET_VALUES]
    rw [hm, pythonRound_intVal
      (by norm_num : (9.8 : ℚ) * 70 * (30 / 60) = ((343 : ℤ) : ℚ))]
  have hex2 : calculate_calories_burned "unknown_sport" 60 70 = 350 := by
    have hn : normalizeActivity "unknown_sport" = "unknown_sport" := by decide
    show pythonRound
      (metFor (normalizeActivity "unknown_sport") * 70 * (60 / 60)) = 350
    rw [hn]
    have hm : metFor "unknown_sport" = 5 := by
      simp [metFor, MET_VALUES]
      norm_num
    rw [hm, pythonRound_intVal
      (by norm_num : (5 : ℚ) * 70 * (60 / 60) = ((350 : ℤ) : ℚ))]
  refine ⟨rfl, fun t dur w => rfl, ?_, ?_, ?_, ?_, ?_, ?_, ?_, ?_, ?_, ?_, ?_,
    ?_, ?_, ?_, ?_, ?_, ?_, ?_, ?_, by decide, hex1, hex2⟩
  all_goals (simp [metFor, MET_VALUES]; try norm_num)

/-- C10: `calculate_bmi` returns 0.0 whenever weight or height is
non-positive (so the division is never reached with a zero divisor), and
otherwise weight over squared height in metres rounded to 1 decimal. -/
theorem claim_C10_bmi :
    (∀ w h : ℚ, (w ≤ 0 ∨ h ≤ 0) → calculate_bmi w h = 0) ∧
    (∀ w h : ℚ, 0 < w → 0 < h →
      calculate_bmi w h = round1 (w / (h / 100) ^ 2)) := by
  constructor
  · intro w h hwh
    unfold calculate_bmi
    rw [if_pos hwh]
  · intro w h hw hh
    unfold calculate_bmi
    rw [if_neg (by push_neg; exact ⟨hw, hh⟩)]

/-- C10 witness: the theorem applied at `(-1, 180)` and `(45, 150)`; the
latter evaluates to BMI 20. -/
theorem claim_C10_bmi_witness :
    calculate_bmi (-1) 180 = 0 ∧
    calculate_bmi 45 150 = round1 ((45 : ℚ) / ((150 : ℚ) / 100) ^ 2) ∧
    round1 ((45 : ℚ) / ((150 : ℚ) / 100) ^ 2) = 20 := by
  refine ⟨claim_C10_bmi.1 (-1) 180 (Or.inl (by norm_num)),
    claim_C10_bmi.2 45 150 (by norm_num) (by norm_num), ?_⟩
  rw [show (45 : ℚ) / ((150 : ℚ) / 100) ^ 2 = ((20 : ℤ) : ℚ) by norm_num]
  rw [show round1 ((20 : ℤ) : ℚ) = (((200 : ℤ) : ℚ)) / 10 from
    round1_intVal (by push_cast; norm_num)]
  norm_num

/-- C4 counterexample: on 2023-01-01 (a Sunday) the code's `%W` week key is
`2023-W00`, while the claim's convention (weeks beginning on Sunday, week 00
starting January 1) gives `2023-W01`. -/
theorem claim_C4_counterexample :
    periodKey "week" ⟨2023, 1, 1⟩ = "2023-W00" ∧
    specSundayWeekKey ⟨2023, 1, 1⟩ = "2023-W01" := by
  constructor
  · decide
  · decide

/-- C4 (amended: weeks begin on Monday, not Sunday): the bucket key is
`%Y-%m-%d` for `"day"`, `%Y-%m` for `"month"`, the day format for any other
unrecognized period, and `%Y-W%W` for `"week"`, where the `%W` week number
counts the Mondays of the year up to and including the date (so the days
before the year's first Monday are week 00 and weeks begin on Monday). -/
theorem claim_C4_period_keys :
    (∀ d : Date, periodKey "day" d = fmtDay d) ∧
    (∀ d : Date, periodKey "month" d = fmtMonth d) ∧
    (∀ d : Date, periodKey "week" d = fmtWeek d) ∧
    (∀ (p : String) (d : Date), p ≠ "day" → p ≠ "week" → p ≠ "month" →
      periodKey p d = fmtDay d) ∧
    (∀ d : Date, fmtDay d =
      String.mk (digits4 d.year ++ '-' :: (digits2 d.month ++ '-' :: digits2 d.day))) ∧
    (∀ d : Date, fmtMonth d =
      String.mk (digits4 d.year ++ '-' :: digits2 d.month)) ∧
    (∀ d : Date, fmtWeek d =
      String.mk (digits4 d.year ++ '-' :: 'W' :: digits2 (weekW d))) ∧
    (∀ d : Date, weekW d = (List.range (dayOfYear0 d + 1)).countP
      (fun j => (weekdayMon0 ⟨d.year, 1, 1⟩ + j) % 7 = 0)) := by
  refine ⟨fun d => periodKey_day d, fun d => by simp [periodKey],
    fun d => by simp [periodKey], ?_, fun d => rfl, fun d => rfl, fun d => rfl,
    weekW_eq_countMondays⟩
  intro p d h1 h2 h3
  unfold periodKey
  rw [if_neg h1, if_neg h2, if_neg h3]

/-- C4 witness: the theorem applied at the unrecognized period `"total"` and
at 2023-01-05, and the week characterization at 2023-01-05. -/
theorem claim_C4_period_keys_witness :
    periodKey "total" dateA = fmtDay dateA ∧
    weekW dateA = (List.range (dayOfYear0 dateA + 1)).countP
      (fun j => (weekdayMon0 ⟨dateA.year, 1, 1⟩ + j) % 7 = 0) :=
  ⟨claim_C4_period_keys.2.2.2.1 "total" dateA (by decide) (by decide) (by decide),
    claim_C4_period_keys.2.2.2.2.2.2.2 dateA⟩

/-- C5 counterexample: a record whose date field is present but holds the
empty string is skipped (Python truthiness), so the bucket counts sum to 0
while the number of records with both fields present is 1. -/
theorem claim_C5_counterexample :
    aggregate_by_period [⟨some (DVal.dstr ""), some 1⟩] "day" = some [] ∧
    ([(⟨some (DVal.dstr ""), some 1⟩ : Rec)]).countP
      (fun r => r.date.isSome && r.value.isSome) = 1 := by
  constructor
  · decide
  · decide

/-- C5 (amended: a record is kept iff its date field is present and truthy —
non-empty for strings — and its value field is present): whenever
`aggregate_by_period` returns a bucket list, the bucket counts sum to the
number of kept records; all other records are skipped silently. -/
theorem claim_C5_count_conservation :
    ∀ (data : List Rec) (p : String) (bs : List Bucket),
      aggregate_by_period data p = some bs →
      (bs.map Bucket.count).sum = data.countP keptB :=
  fun data p bs h => aggregate_sumCounts p data bs h

/-- C5 witness: the theorem applied to `[recA, recB]` aggregated by day. -/
theorem claim_C5_count_conservation_witness :
    aggregate_by_period [recA, recB] "day" = some [bucketAB] ∧
    ([bucketAB].map Bucket.count).sum = ([recA, recB]).countP keptB :=
  ⟨eval_agg_AB,
    claim_C5_count_conservation [recA, recB] "day" [bucketAB] eval_agg_AB⟩

/-- C6: whenever `aggregate_by_period` returns a bucket list, the list is
sorted ascending by bucket key; and the whole result is invariant under any
permutation of the input records. -/
theorem claim_C6_sorted_and_perm_invariant :
    (∀ (data : List Rec) (p : String) (bs : List Bucket),
      aggregate_by_period data p = some bs →
      (bs.map Bucket.period).Sorted (· ≤ ·)) ∧
    (∀ (data data' : List Rec) (p : String), List.Perm data data' →
      aggregate_by_period data p = aggregate_by_period data' p) := by
  constructor
  · intro data p bs h
    unfold aggregate_by_period at h
    by_cases hemp : data.isEmpty
    · rw [if_pos hemp] at h
      have hbs : bs = [] := (Option.some_injective _ h).symm
      subst hbs
      simp
    · rw [if_neg hemp] at h
      rcases hb : buildAgg p [] data with _ | M <;> rw [hb] at h
      · cases h
      · rw [Option.map_some'] at h
        have hbs : bs = finalizeAgg M := (Option.some_injective _ h).symm
        subst hbs
        exact sorted_keys_finalize M
  · intro data data' p h
    exact aggregate_perm p h

/-- C6 witness: the theorem applied to `[recA, recB]` by day, and to the
swap permutation of that input. -/
theorem claim_C6_sorted_and_perm_invariant_witness :
    (([bucketAB].map Bucket.period).Sorted (· ≤ ·)) ∧
    aggregate_by_period [recA, recB] "day" =
      aggregate_by_period [recB, recA] "day" :=
  ⟨claim_C6_sorted_and_perm_invariant.1 [recA, recB] "day" [bucketAB] eval_agg_AB,
    claim_C6_sorted_and_perm_invariant.2 [recA, recB] [recB, recA] "day"
      (List.Perm.swap recB recA [])⟩

/-- C7 counterexample: aggregating two same-day records gives one bucket with
count 2; re-aggregating that bucket list (period as date field, average as
value field) yields count 1, so the result is not the identical bucket
list. -/
theorem claim_C7_counterexample :
    aggregate_by_period [recA, recB] "day" = some [bucketAB] ∧
    aggregate_by_period ([bucketAB].map bucketToRec) "day" ≠ some [bucketAB] := by
  refine ⟨eval_agg_AB, ?_⟩
  rw [eval_reagg_AB]
  intro h
  have h2 := Option.some_injective _ h
  injection h2 with hhead htail
  exact absurd (congrArg Bucket.count hhead) (by decide)

/-- C7 (amended: re-aggregation of a day-period bucket list is the identity
on period keys and averages only — every count is reset to 1, so it is not a
per-bucket no-op): re-aggregating the bucket list of a day-period
aggregation, with the bucket's period as date field and its average as value
field, returns the same buckets with every count equal to 1. -/
theorem claim_C7_reaggregation :
    ∀ (data : List Rec) (bs : List Bucket),
      (∀ r ∈ data, ∀ d : Date, r.date = some (DVal.ddt d) → ValidDate d) →
      aggregate_by_period data "day" = some bs →
      aggregate_by_period (bs.map bucketToRec) "day" =
        some (bs.map resetCount) :=
  fun data bs hv h => aggregate_reaggregate_day data bs hv h

/-- C7 witness: the theorem applied to `[recA, recB]` by day. -/
theorem claim_C7_reaggregation_witness :
    aggregate_by_period [recA, recB] "day" = some [bucketAB] ∧
    aggregate_by_period ([bucketAB].map bucketToRec) "day" =
      some ([bucketAB].map resetCount) := by
  have hvalid : ∀ r ∈ [recA, recB], ∀ d : Date,
      r.date = some (DVal.ddt d) → ValidDate d := by
    intro r hr d hd
    have hda : d = dateA := by
      rcases List.mem_cons.mp hr with rfl | hr2
      · simpa [recA] using hd.symm
      · rcases List.mem_cons.mp hr2 with rfl | h3
        · simpa [recB] using hd.symm
        · cases h3
    subst hda
    decide
  exact ⟨eval_agg_AB,
    claim_C7_reaggregation [recA, recB] [bucketAB] hvalid eval_agg_AB⟩

/-- C8 counterexample: a workout record with a present distance of 0 yields
`total_distance = none`, though a distance value is present — the code treats
falsy (zero) distances as absent. -/
theorem claim_C8_counterexample :
    (calculate_workout_stats [⟨some 10, some 5, some 0⟩]).total_distance = none ∧
    ((⟨some 10, some 5, some 0⟩ : WorkoutRec)).distance.isSome = true := by
  constructor
  · rfl
  · rfl

/-- C8 (amended: a distance counts only when present and nonzero, and the
rounded sum is reported only when it is itself nonzero — Python truthiness):
`calculate_workout_stats` returns the record count, the sums of duration and
caloriesBurned with missing values as 0, and the rounded sum of the present
nonzero distances when that sum is nonzero, `none` otherwise; empty input
gives `{0, 0, 0, none}`. -/
theorem claim_C8_workout_stats :
    calculate_workout_stats [] = ⟨0, 0, 0, none⟩ ∧
    ∀ records : List WorkoutRec,
      (calculate_workout_stats records).total_workouts = records.length ∧
      (calculate_workout_stats records).total_duration =
        (records.map (fun r => r.duration.getD 0)).sum ∧
      (calculate_workout_stats records).total_calories =
        (records.map (fun r => r.caloriesBurned.getD 0)).sum ∧
      (calculate_workout_stats records).total_distance =
        (if (records.filterMap (fun r => match r.distance with
            | some q => if q = 0 then none else some q
            | none => none)).sum ≠ 0 then
          some (round2 (records.filterMap (fun r => match r.distance with
            | some q => if q = 0 then none else some q
            | none => none)).sum)
        else none) := by
  refine ⟨rfl, ?_⟩
  intro records
  by_cases hemp : records.isEmpty
  · have hr : records = [] := List.isEmpty_iff.mp hemp
    subst hr
    refine ⟨rfl, rfl, rfl, ?_⟩
    simp [calculate_workout_stats]
  · unfold calculate_workout_stats
    rw [if_neg hemp]
    refine ⟨rfl, rfl, rfl, ?_⟩
    simp only
    set ds := records.filterMap (fun r => match r.distance with
      | some q => if q = 0 then none else some q
      | none => none) with hds
    by_cases hde : ds.isEmpty
    · have hnil : ds = [] := List.isEmpty_iff.mp hde
      rw [if_pos hde, hnil]
      norm_num
    · rw [if_neg hde]
      show (if ds.sum = 0 then (none : Option ℚ) else some (round2 ds.sum)) =
        (if ds.sum ≠ 0 then some (round2 ds.sum) else none)
      by_cases hz : ds.sum = 0
      · rw [if_pos hz, if_neg (fun hne => hne hz)]
      · rw [if_neg hz, if_pos hz]

/-- C9 counterexample: with two records whose oldest weight is a present 0,
`weight_change` is `none` although at least 2 records exist and both
endpoints have a (present) weight — the code requires truthy (nonzero)
weights. -/
theorem claim_C9_counterexample :
    (calculate_body_metrics_stats
      [⟨some "2023-01-01", some 0, none, none⟩,
       ⟨some "2023-01-02", some 50, none, none⟩]).weight_change = none ∧
    ((⟨some "2023-01-01", some 0, none, none⟩ : BodyRec)).weight.isSome = true ∧
    ((⟨some "2023-01-02", some 50, none, none⟩ : BodyRec)).weight.isSome = true ∧
    2 ≤ ([(⟨some "2023-01-01", some 0, none, none⟩ : BodyRec),
       ⟨some "2023-01-02", some 50, none, none⟩]).length := by
  refine ⟨?_, rfl, rfl, by norm_num⟩
  have hge : ¬ bodyGe ⟨some "2023-01-01", some 0, none, none⟩
      ⟨some "2023-01-02", some 50, none, none⟩ := by
    unfold bodyGe bodyKey
    simp
    decide
  have hsort : sortBodyDesc [(⟨some "2023-01-01", some 0, none, none⟩ : BodyRec),
      ⟨some "2023-01-02", some 50, none, none⟩] =
      [⟨some "2023-01-02", some 50, none, none⟩,
       ⟨some "2023-01-01", some 0, none, none⟩] := by
    show List.orderedInsert bodyGe ⟨some "2023-01-01", some 0, none, none⟩
      [⟨some "2023-01-02", some 50, none, none⟩] = _
    rw [List.orderedInsert, if_neg hge]
    rfl
  unfold calculate_body_metrics_stats
  rw [if_neg (by decide)]
  simp only [hsort]
  rw [if_neg]
  intro hcond
  exact absurd hcond.2.2 (by decide)

/-- C9 (amended: both endpoint weights must be present and nonzero — Python
truthiness): `weight_change` equals the absolute component of
`calculate_change(oldest weight, latest weight)` exactly when at least 2
records exist and the latest and oldest records of the descending
`recordedAt` sort both carry a truthy weight, and is `none` otherwise; a
single-record input yields that record's weight as `latest_weight` and no
`weight_change`. -/
theorem claim_C9_weight_change :
    (∀ records : List BodyRec,
      (calculate_body_metrics_stats records).weight_change =
        (if 2 ≤ records.length ∧
            truthyQ (sortBodyDesc records).headI.weight = true ∧
            truthyQ (sortBodyDesc records).getLastI.weight = true then
          some (calculate_change (sortBodyDesc records).getLastI.weight
            (sortBodyDesc records).headI.weight).absolute
        else none)) ∧
    (∀ r : BodyRec,
      (calculate_body_metrics_stats [r]).latest_weight = r.weight ∧
      (calculate_body_metrics_stats [r]).weight_change = none) := by
  constructor
  · intro records
    by_cases hemp : records.isEmpty
    · have hr : records = [] := List.isEmpty_iff.mp hemp
      subst hr
      rw [if_neg (by norm_num)]
      rfl
    · unfold calculate_body_metrics_stats
      rw [if_neg hemp]
      simp only [length_sortBodyDesc]
  · intro r
    have hs : sortBodyDesc [r] = [r] := rfl
    constructor
    · rfl
    · unfold calculate_body_metrics_stats
      rw [if_neg (by norm_num)]
      simp only
      rw [if_neg]
      intro hcond
      have h2 := hcond.1
      rw [length_sortBodyDesc] at h2
      norm_num at h2

end Bancked

